import Mathlib

/-!
Verification of the pixel-perfect image-to-SVG converter
(`img2svg_pixelperfect_ui.py`).

The development shallowly embeds the conversion core:
* `rgba_to_svg_fill` (source lines 36-37),
* the row scanner and SVG serialization of `image_to_svg_vector`
  (source lines 39-72),
* the per-file orchestration of `convert_selected` (source lines 208-224),
* the output cleanup of `clear_converted` (source lines 247-261).

Machine integers are plain `Nat`s; pixel channels are `Fin 256` (Pillow's
RGBA bytes).  Python's float `a / 255.0` is modelled exactly as the rational
`a / 255`: for `a ∈ [0, 255]` the comparison with `1.0` and the `%.6f`
rendering agree between IEEE doubles and exact rationals, because no `a/255`
lies within `2·10⁻⁹` of a six-decimal rounding tie (the double is within
`2⁻⁵³` of the rational).  Filesystem effects are made explicit: the output
directory is an association list from file names to contents, and a write
failure is injected as an optional failing chunk index with an exception
message.
-/

namespace Img2Svg

/-- An RGBA pixel value: four channels, each a byte (Pillow `"RGBA"` mode). -/
structure RGBA where
  r : Fin 256
  g : Fin 256
  b : Fin 256
  a : Fin 256
deriving DecidableEq

/-- A decoded raster image: width, height, and the pixel accessor
`pixels[x, y]` of the source (line 42).  Only in-range coordinates
(`x < w`, `y < h`) are ever read by the converter. -/
structure Image where
  w : Nat
  h : Nat
  pix : Nat → Nat → RGBA

/-- One horizontal run of identical non-transparent pixels, as emitted by the
scanning loop of `image_to_svg_vector` (lines 58-63). -/
structure Run where
  row : Nat
  start : Nat
  len : Nat
  color : RGBA
deriving DecidableEq

/-- One uppercase hexadecimal digit, as produced by Python's `%X` format. -/
def hexDigit (n : Nat) : Char :=
  if n < 10 then Char.ofNat (48 + n) else Char.ofNat (55 + n)

/-- Two-digit zero-padded uppercase hex of a byte: Python's `f"{v:02X}"`. -/
def hex2 (n : Nat) : String :=
  String.mk [hexDigit (n / 16), hexDigit (n % 16)]

/-- Embedding of `rgba_to_svg_fill` (source lines 36-37): the fill string
`#RRGGBB` and the opacity `a / 255.0`, the float modelled exactly as the
rational `a / 255` (written via `Rat.divInt`, which is proved below to equal
the division `(a : ℚ) / 255`; see the file comment for why the float and the
rational agree on every use). -/
def rgba_to_svg_fill (r g b a : Fin 256) : String × ℚ :=
  ("#" ++ hex2 r.val ++ hex2 g.val ++ hex2 b.val, Rat.divInt a.val 255)

/-- Model of Python's `f"{q:.6f}"` for `0 ≤ q < 1` (the only use in the
source, guarded by `fill_opacity < 1.0`): `q·10⁶` rounded to the nearest
integer (computed from the reduced numerator and denominator; ties, which
never occur for `q = a/255`, round up), written as `0.` followed by exactly
six decimal digits. -/
def format6 (q : ℚ) : String :=
  let n : Nat := (q.num.toNat * 2000000 + q.den) / (2 * q.den)
  "0." ++ String.mk [Nat.digitChar (n / 100000 % 10), Nat.digitChar (n / 10000 % 10),
    Nat.digitChar (n / 1000 % 10), Nat.digitChar (n / 100 % 10),
    Nat.digitChar (n / 10 % 10), Nat.digitChar (n % 10)]

/-- The first `f.write` payload for one run (source lines 65-67): the rect
element up to and including its `fill` attribute. -/
def rectOpen (r : Run) : String :=
  "  <rect x=\"" ++ toString r.start ++ "\" y=\"" ++ toString r.row ++
    "\" width=\"" ++ toString r.len ++ "\" height=\"1\" fill=\"" ++
    (rgba_to_svg_fill r.color.r r.color.g r.color.b r.color.a).1 ++ "\""

/-- The successive `f.write` payloads for one run (source lines 64-70): the
rect opening with `fill`, the optional `fill-opacity` attribute (written only
when the opacity is `< 1.0`), and the closing `/>`. -/
def rectChunks (r : Run) : List String :=
  rectOpen r ::
    (if (rgba_to_svg_fill r.color.r r.color.g r.color.b r.color.a).2 < 1 then
      [" fill-opacity=\"" ++
        format6 (rgba_to_svg_fill r.color.r r.color.g r.color.b r.color.a).2 ++ "\""]
    else []) ++ ["/>\n"]

/-- The full text of one rect element. -/
def rectLine (r : Run) : String := String.join (rectChunks r)

/-- The XML declaration written first (source line 45). -/
def xmlDecl : String := "<?xml version=\"1.0\" encoding=\"UTF-8\"?>\n"

/-- The `<svg>` opening tag (source lines 46-49). -/
def svgOpen (w h : Nat) : String :=
  "<svg xmlns=\"http://www.w3.org/2000/svg\" width=\"" ++ toString w ++
    "\" height=\"" ++ toString h ++ "\" viewBox=\"0 0 " ++ toString w ++ " " ++
    toString h ++ "\" shape-rendering=\"crispEdges\">\n"

/-- The inner `while x < w and pixels[x, y] == (run_r, run_g, run_b, run_a)`
loop (source lines 61-62), advancing `x` past the pixels equal to the run
color.  Fuel-indexed so that the definition is structural; `runEnd` below
supplies exact fuel `w - x`, which never runs out. -/
def runEndAux (img : Image) (y : Nat) (c : RGBA) : Nat → Nat → Nat
  | 0, x => x
  | fuel + 1, x =>
    if x < img.w then
      (if img.pix x y = c then runEndAux img y c fuel (x + 1) else x)
    else x

/-- The column at which the run that is being extended from `x` stops. -/
def runEnd (img : Image) (y : Nat) (c : RGBA) (x : Nat) : Nat :=
  runEndAux img y c (img.w - x) x

/-- The outer `while x < w` loop of one row (source lines 52-63): skip
transparent pixels, otherwise emit a run and continue at its end.  Fuel
decreases by one per step while `x` advances by at least one, so fuel
`w - x` suffices. -/
def scanRowAux (img : Image) (y : Nat) : Nat → Nat → List Run
  | 0, _ => []
  | fuel + 1, x =>
    if x < img.w then
      if (img.pix x y).a = 0 then scanRowAux img y fuel (x + 1)
      else
        { row := y, start := x, len := runEnd img y (img.pix x y) (x + 1) - x,
            color := img.pix x y } ::
          scanRowAux img y fuel (runEnd img y (img.pix x y) (x + 1))
    else []

/-- All runs emitted for row `y`, in emission order. -/
def rowRuns (img : Image) (y : Nat) : List Run :=
  scanRowAux img y img.w 0

/-- All runs of the image in row-major emission order (source line 51). -/
def runsOf (img : Image) : List Run :=
  ((List.range img.h).map (rowRuns img)).flatten

/-- The successive `f.write` payloads of `image_to_svg_vector`
(source lines 44-72), in order. -/
def svgChunks (img : Image) : List String :=
  xmlDecl :: svgOpen img.w img.h ::
    (((runsOf img).map rectChunks).flatten ++ ["</svg>\n"])

/-- The complete SVG text produced by `image_to_svg_vector` for a decoded
image: the concatenation of every chunk written to the output file. -/
def svgText (img : Image) : String := String.join (svgChunks img)

/-! ### Rasterization (written from the claim, not from the source)

The source has no rasterizer; claim C1 relates the produced SVG to one.
Following the claim's words, a reconstruction fills, at each coordinate, the
color of the rectangle covering it (each run is a rect at `x = start`,
`y = row`, `width = len`, `height = 1`), and alpha `0` at every column not
covered by any rectangle — the canonical fully-transparent pixel
`(0, 0, 0, 0)`. -/

/-- Does the rect of run `r` cover coordinate `(x, y)`? -/
def coversB (r : Run) (x y : Nat) : Bool :=
  decide (r.row = y) && decide (r.start ≤ x) && decide (x < r.start + r.len)

/-- The claim's reconstruction of a pixel from the emitted rectangles. -/
def rasterizeSpec (rs : List Run) (x y : Nat) : RGBA :=
  match rs.find? (fun r => coversB r x y) with
  | some r => r.color
  | none => ⟨0, 0, 0, 0⟩

/-! ### The conversion orchestrator (`convert_selected`, source lines 208-224)

The per-file loop is embedded over an explicit output directory: an
association list from file names (within `OUTPUT_DIR`) to file contents.
An input path is represented by its stem, its extension, and what the
filesystem/decoder yields for it: `missing` (the `src.exists()` check on
line 211 fails), `undecodable msg` (`Image.open`/`convert("RGBA")` raises
`msg` — this happens before the output file is opened for writing), or
`decoded img`.  A write failure is injected as an optional pair
`(k, msg)`: the `k`-th `f.write` call of `image_to_svg_vector` raises
`msg`; the chunks already written remain in the created file (Python's
`with open(...)` closes but does not delete on an exception). -/

/-- What opening and decoding an input path yields. -/
inductive InputStatus
  | missing
  | undecodable (msg : String)
  | decoded (img : Image)

/-- An input path: `stem` is `src.stem`, `ext` its suffix. -/
structure InputFile where
  stem : String
  ext : String
  status : InputStatus

/-- `src.name`, as used in the outcome messages. -/
def InputFile.name (f : InputFile) : String := f.stem ++ f.ext

/-- The per-path outcome recorded by `convert_selected` into the
`converted` / `skipped` / `errors` lists (lines 204-224). -/
inductive Outcome
  | converted (name : String)
  | skipped (name : String)
  | error (msg : String)
deriving DecidableEq

/-- The files directly inside the output directory: name to content. -/
def OutDirFiles : Type := List (String × String)

/-- Does `name` exist in the output directory, and with what content? -/
def lookup (fs : OutDirFiles) (name : String) : Option String :=
  (List.find? (fun p => decide (p.1 = name)) fs).map Prod.snd

/-- Creating/overwriting a file in the output directory. -/
def writeFile (fs : OutDirFiles) (name content : String) : OutDirFiles :=
  (name, content) :: fs

/-- One iteration of the loop of `convert_selected` (lines 208-224) on input
`inp`, over output directory `fs`, with injected write failure `failAt`:
check existence, compute `out_svg = stem + ".svg"`, skip if it exists,
otherwise decode and run `image_to_svg_vector`. -/
def convertOne (failAt : Option (Nat × String)) (fs : OutDirFiles)
    (inp : InputFile) : OutDirFiles × Outcome :=
  match inp.status with
  | .missing => (fs, .error (inp.name ++ " (missing)"))
  | .undecodable msg =>
    if (lookup fs (inp.stem ++ ".svg")).isSome then (fs, .skipped inp.name)
    else (fs, .error (inp.name ++ " (error: " ++ msg ++ ")"))
  | .decoded img =>
    if (lookup fs (inp.stem ++ ".svg")).isSome then (fs, .skipped inp.name)
    else
      match failAt with
      | some (k, msg) =>
        if k < (svgChunks img).length then
          (writeFile fs (inp.stem ++ ".svg") (String.join ((svgChunks img).take k)),
            .error (inp.name ++ " (error: " ++ msg ++ ")"))
        else
          (writeFile fs (inp.stem ++ ".svg") (svgText img), .converted inp.name)
      | none =>
        (writeFile fs (inp.stem ++ ".svg") (svgText img), .converted inp.name)

/-- The whole `for p in list(self.selected_paths)` loop: fold `convertOne`
over the inputs (each with its injected write-failure schedule), collecting
one outcome per input in order.  The `try/except` of lines 209-224 is what
makes every per-file failure a recorded `error` outcome rather than an
abort; in the model this is visible in `convertOne` being total. -/
def convertBatch (fs : OutDirFiles) :
    List (InputFile × Option (Nat × String)) → OutDirFiles × List Outcome
  | [] => (fs, [])
  | (inp, failAt) :: rest =>
    ((convertBatch (convertOne failAt fs inp).1 rest).1,
      (convertOne failAt fs inp).2 :: (convertBatch (convertOne failAt fs inp).1 rest).2)

/-! ### The cleanup operation (`clear_converted`, source lines 247-261)

The output directory is modelled with its direct entries: regular files
(name and content) and immediate subdirectories (name and their own files,
which `clear_converted` never touches).  `canDelete` says which `unlink`
calls succeed; a failing one is swallowed by the `except: pass` on lines
252-253.  `rmdir` (line 255) succeeds exactly when the directory has become
empty, and its failure is swallowed likewise. -/

/-- The state of the output directory. -/
structure OutDirState where
  present : Bool
  files : List (String × String)
  subdirs : List (String × List (String × String))

/-- Embedding of `clear_converted`: unlink every direct entry (directory
entries always fail to unlink, file entries fail when `canDelete` is false,
both tolerated), then try `rmdir`. -/
def clear_converted (canDelete : String → Bool) (d : OutDirState) : OutDirState :=
  if d.present then
    if (d.files.filter fun f => !canDelete f.1).isEmpty && d.subdirs.isEmpty then
      ⟨false, [], []⟩
    else
      ⟨true, d.files.filter fun f => !canDelete f.1, d.subdirs⟩
  else d

/-! ### Concrete inputs used by witnesses and counterexamples -/

/-- The spec's 3×1 scenario: two red pixels then a green one, all opaque. -/
def img3 : Image :=
  ⟨3, 1, fun x _ => if x < 2 then ⟨255, 0, 0, 255⟩ else ⟨0, 255, 0, 255⟩⟩

/-- A 1×1 image whose only pixel is fully transparent but has nonzero RGB. -/
def imgT : Image := ⟨1, 1, fun _ _ => ⟨9, 8, 7, 0⟩⟩

/-- A 1×1 opaque red image. -/
def imgRed : Image := ⟨1, 1, fun _ _ => ⟨255, 0, 0, 255⟩⟩

/-- A 2×1 image with a half-transparent gray pixel next to a transparent one. -/
def imgHalf : Image :=
  ⟨2, 1, fun x _ => if x = 0 then ⟨16, 32, 48, 128⟩ else ⟨0, 0, 0, 0⟩⟩

/-- `img3` with garbage out-of-range pixel values: the converter never reads
them, so the output must not change. -/
def img3Pad : Image :=
  ⟨3, 1, fun x y =>
    if x < 3 && y < 1 then (if x < 2 then ⟨255, 0, 0, 255⟩ else ⟨0, 255, 0, 255⟩)
    else ⟨1, 2, 3, 4⟩⟩

/-- `imgHalf` with different RGB garbage under its fully-transparent pixel. -/
def imgHalf2 : Image :=
  ⟨2, 1, fun x _ => if x = 0 then ⟨16, 32, 48, 128⟩ else ⟨200, 100, 50, 0⟩⟩

/-- An input whose file no longer exists. -/
def inpGone : InputFile := ⟨"gone", ".png", .missing⟩

/-- An input that decodes to `imgRed`. -/
def inpRed : InputFile := ⟨"red", ".png", .decoded imgRed⟩

/-- An input that decodes to `img3`. -/
def inpThree : InputFile := ⟨"three", ".png", .decoded img3⟩

/-- A corrupt input whose decoding raises. -/
def inpBad : InputFile := ⟨"bad", ".png", .undecodable "broken header"⟩

/-- An output directory already holding `gone.svg`. -/
def fsGone : OutDirFiles := [("gone.svg", "old content")]

/-- A length-1 run with the half-transparent pixel of `imgHalf`. -/
def runHalf : Run := ⟨0, 0, 1, ⟨16, 32, 48, 128⟩⟩

/-- A populated output directory with one deletable file, one undeletable
file, and a subdirectory. -/
def dirDemo : OutDirState :=
  ⟨true, [("a.svg", "x"), ("locked.svg", "y")], [("sub", [("inner.svg", "z")])]⟩

/-- Deletion succeeds for every file except `locked.svg`. -/
def canDelDemo : String → Bool := fun s => s != "locked.svg"

/-- Everything that holds of a run emitted while scanning row `y` from
column `x0` on: it lies on row `y` within `[x0, w)`, is nonempty, starts at
a non-transparent pixel carrying exactly its color, covers only pixels equal
to its color, and stops at a differing pixel (or the row boundary). -/
def GoodRun (img : Image) (y x0 : Nat) (r : Run) : Prop :=
  r.row = y ∧ x0 ≤ r.start ∧ r.start < img.w ∧ 1 ≤ r.len ∧
    r.start + r.len ≤ img.w ∧ r.color = img.pix r.start y ∧ r.color.a ≠ 0 ∧
    (∀ t, r.start ≤ t → t < r.start + r.len → img.pix t y = r.color) ∧
    (r.start + r.len < img.w → img.pix (r.start + r.len) y ≠ r.color)

/-! ### Properties of the inner run-extension loop -/

theorem runEndAux_ge (img : Image) (y : Nat) (c : RGBA) :
    ∀ fuel x, x ≤ runEndAux img y c fuel x := by
  intro fuel
  induction fuel with
  | zero => intro x; exact Nat.le_refl x
  | succ fuel ih =>
    intro x
    simp only [runEndAux]
    split
    · split
      · exact Nat.le_trans (Nat.le_succ x) (ih (x + 1))
      · exact Nat.le_refl x
    · exact Nat.le_refl x

theorem runEndAux_le (img : Image) (y : Nat) (c : RGBA) :
    ∀ fuel x, x ≤ img.w → runEndAux img y c fuel x ≤ img.w := by
  intro fuel
  induction fuel with
  | zero => intro x hx; exact hx
  | succ fuel ih =>
    intro x hx
    simp only [runEndAux]
    split
    · split
      · exact ih (x + 1) (by omega)
      · exact hx
    · exact hx

theorem runEndAux_pix (img : Image) (y : Nat) (c : RGBA) :
    ∀ fuel x t, x ≤ t → t < runEndAux img y c fuel x → img.pix t y = c := by
  intro fuel
  induction fuel with
  | zero =>
    intro x t hxt ht
    exact absurd ht (by simp only [runEndAux]; omega)
  | succ fuel ih =>
    intro x t hxt ht
    simp only [runEndAux] at ht
    by_cases hw : x < img.w
    · simp only [if_pos hw] at ht
      by_cases hc : img.pix x y = c
      · simp only [if_pos hc] at ht
        rcases Nat.eq_or_lt_of_le hxt with h | h
        · exact h ▸ hc
        · exact ih (x + 1) t h ht
      · simp only [if_neg hc] at ht; omega
    · simp only [if_neg hw] at ht; omega

theorem runEndAux_stop (img : Image) (y : Nat) (c : RGBA) :
    ∀ fuel x, img.w - x ≤ fuel → runEndAux img y c fuel x < img.w →
      img.pix (runEndAux img y c fuel x) y ≠ c := by
  intro fuel
  induction fuel with
  | zero =>
    intro x hfuel hlt
    simp only [runEndAux] at hlt
    omega
  | succ fuel ih =>
    intro x hfuel hlt
    simp only [runEndAux] at hlt ⊢
    by_cases hw : x < img.w
    · simp only [if_pos hw] at hlt ⊢
      by_cases hc : img.pix x y = c
      · simp only [if_pos hc] at hlt ⊢
        exact ih (x + 1) (by omega) hlt
      · simp only [if_neg hc] at hlt ⊢
        exact hc
    · simp only [if_neg hw] at hlt
      omega

theorem runEnd_ge (img : Image) (y : Nat) (c : RGBA) (x : Nat) :
    x ≤ runEnd img y c x :=
  runEndAux_ge img y c (img.w - x) x

theorem runEnd_le (img : Image) (y : Nat) (c : RGBA) (x : Nat) (hx : x ≤ img.w) :
    runEnd img y c x ≤ img.w :=
  runEndAux_le img y c (img.w - x) x hx

theorem runEnd_pix (img : Image) (y : Nat) (c : RGBA) (x t : Nat)
    (hxt : x ≤ t) (ht : t < runEnd img y c x) : img.pix t y = c :=
  runEndAux_pix img y c (img.w - x) x t hxt ht

theorem runEnd_stop (img : Image) (y : Nat) (c : RGBA) (x : Nat)
    (hlt : runEnd img y c x < img.w) : img.pix (runEnd img y c x) y ≠ c :=
  runEndAux_stop img y c (img.w - x) x (Nat.le_refl _) hlt

/-! ### Properties of the emitted runs of one row -/

theorem GoodRun.mono {img : Image} {y x0 x1 : Nat} {r : Run}
    (h : GoodRun img y x1 r) (hx : x0 ≤ x1) : GoodRun img y x0 r :=
  ⟨h.1, Nat.le_trans hx h.2.1, h.2.2.1, h.2.2.2.1, h.2.2.2.2.1,
    h.2.2.2.2.2.1, h.2.2.2.2.2.2.1, h.2.2.2.2.2.2.2.1, h.2.2.2.2.2.2.2.2⟩

theorem scanRowAux_good (img : Image) (y : Nat) :
    ∀ fuel x, ∀ r ∈ scanRowAux img y fuel x, GoodRun img y x r := by
  intro fuel
  induction fuel with
  | zero => intro x r hr; simp [scanRowAux] at hr
  | succ fuel ih =>
    intro x r hr
    simp only [scanRowAux] at hr
    by_cases hw : x < img.w
    · rw [if_pos hw] at hr
      by_cases ha : (img.pix x y).a = 0
      · rw [if_pos ha] at hr
        exact (ih (x + 1) r hr).mono (Nat.le_succ x)
      · rw [if_neg ha] at hr
        have he1 : x + 1 ≤ runEnd img y (img.pix x y) (x + 1) :=
          runEnd_ge img y (img.pix x y) (x + 1)
        have he2 : runEnd img y (img.pix x y) (x + 1) ≤ img.w :=
          runEnd_le img y (img.pix x y) (x + 1) hw
        rcases List.mem_cons.mp hr with hr | hr
        · subst hr
          refine ⟨rfl, Nat.le_refl x, hw, by simp only; omega, by simp only; omega,
            rfl, ha, ?_, ?_⟩
          · intro t h1 h2
            simp only at h1 h2 ⊢
            rcases Nat.eq_or_lt_of_le h1 with h | h
            · exact h ▸ rfl
            · exact runEnd_pix img y (img.pix x y) (x + 1) t h (by omega)
          · intro hlt
            simp only at hlt ⊢
            have hxe : x + (runEnd img y (img.pix x y) (x + 1) - x) =
                runEnd img y (img.pix x y) (x + 1) := by omega
            rw [hxe] at hlt ⊢
            exact runEnd_stop img y (img.pix x y) (x + 1) hlt
        · exact (ih _ r hr).mono (by omega)
    · rw [if_neg hw] at hr
      exact absurd hr (List.not_mem_nil r)

theorem scanRowAux_sorted (img : Image) (y : Nat) :
    ∀ fuel x, List.Pairwise
      (fun r1 r2 => r1.start + r1.len ≤ r2.start ∧ r1.start < r2.start)
      (scanRowAux img y fuel x) := by
  intro fuel
  induction fuel with
  | zero => intro x; simp [scanRowAux]
  | succ fuel ih =>
    intro x
    simp only [scanRowAux]
    by_cases hw : x < img.w
    · rw [if_pos hw]
      by_cases ha : (img.pix x y).a = 0
      · rw [if_pos ha]; exact ih (x + 1)
      · rw [if_neg ha]
        refine List.Pairwise.cons ?_ (ih _)
        intro r2 hr2
        have h2 := (scanRowAux_good img y fuel
          (runEnd img y (img.pix x y) (x + 1)) r2 hr2).2.1
        have he1 : x + 1 ≤ runEnd img y (img.pix x y) (x + 1) :=
          runEnd_ge img y (img.pix x y) (x + 1)
        simp only
        omega
    · rw [if_neg hw]; exact List.Pairwise.nil

theorem scanRowAux_cover (img : Image) (y : Nat) :
    ∀ fuel x t, img.w - x ≤ fuel → x ≤ t → t < img.w → (img.pix t y).a ≠ 0 →
      ∃ r ∈ scanRowAux img y fuel x, r.start ≤ t ∧ t < r.start + r.len := by
  intro fuel
  induction fuel with
  | zero => intro x t hfuel hxt htw _; omega
  | succ fuel ih =>
    intro x t hfuel hxt htw ha
    have hw : x < img.w := by omega
    simp only [scanRowAux, if_pos hw]
    by_cases h0 : (img.pix x y).a = 0
    · rw [if_pos h0]
      have hne : x ≠ t := fun h => ha (h ▸ h0)
      exact ih (x + 1) t (by omega) (by omega) htw ha
    · rw [if_neg h0]
      have he1 : x + 1 ≤ runEnd img y (img.pix x y) (x + 1) :=
        runEnd_ge img y (img.pix x y) (x + 1)
      by_cases hte : t < runEnd img y (img.pix x y) (x + 1)
      · refine ⟨_, List.mem_cons_self _ _, hxt, ?_⟩
        simp only
        omega
      · obtain ⟨r, hr, h1, h2⟩ :=
          ih (runEnd img y (img.pix x y) (x + 1)) t (by omega) (by omega) htw ha
        exact ⟨r, List.mem_cons_of_mem _ hr, h1, h2⟩

theorem scanRowAux_maximal (img : Image) (y : Nat) :
    ∀ fuel x, List.Pairwise
      (fun r1 r2 => r1.start + r1.len = r2.start → r1.color ≠ r2.color)
      (scanRowAux img y fuel x) := by
  intro fuel
  induction fuel with
  | zero => intro x; simp [scanRowAux]
  | succ fuel ih =>
    intro x
    simp only [scanRowAux]
    by_cases hw : x < img.w
    · rw [if_pos hw]
      by_cases ha : (img.pix x y).a = 0
      · rw [if_pos ha]; exact ih (x + 1)
      · rw [if_neg ha]
        refine List.Pairwise.cons ?_ (ih _)
        intro r2 hr2
        have hg := scanRowAux_good img y fuel
          (runEnd img y (img.pix x y) (x + 1)) r2 hr2
        have he1 : x + 1 ≤ runEnd img y (img.pix x y) (x + 1) :=
          runEnd_ge img y (img.pix x y) (x + 1)
        show x + (runEnd img y (img.pix x y) (x + 1) - x) = r2.start →
          img.pix x y ≠ r2.color
        intro heq hcc
        have hre : r2.start = runEnd img y (img.pix x y) (x + 1) := by omega
        have hstop : img.pix (runEnd img y (img.pix x y) (x + 1)) y ≠ img.pix x y :=
          runEnd_stop img y (img.pix x y) (x + 1) (by rw [← hre]; exact hg.2.2.1)
        apply hstop
        rw [← hre, ← hg.2.2.2.2.2.1]
        exact hcc.symm
    · rw [if_neg hw]; exact List.Pairwise.nil

theorem countP_le_one_of_pairwise {α : Type _} {p : α → Bool} :
    ∀ {l : List α},
      List.Pairwise (fun a b => ¬(p a = true ∧ p b = true)) l → l.countP p ≤ 1 := by
  intro l
  induction l with
  | nil => intro _; rw [List.countP_nil]; exact Nat.zero_le 1
  | cons a l ih =>
    intro h
    rw [List.countP_cons]
    rcases List.pairwise_cons.mp h with ⟨h1, h2⟩
    by_cases hp : p a = true
    · have h0 : l.countP p = 0 :=
        List.countP_eq_zero.mpr fun b hb hpb => h1 b hb ⟨hp, hpb⟩
      simp [h0, hp]
    · simp only [hp, if_false]
      exact Nat.le_trans (ih h2) (by omega)

theorem rowRuns_good (img : Image) (y : Nat) :
    ∀ r ∈ rowRuns img y, GoodRun img y 0 r :=
  scanRowAux_good img y img.w 0

theorem rowRuns_sorted (img : Image) (y : Nat) :
    List.Pairwise (fun r1 r2 => r1.start + r1.len ≤ r2.start ∧ r1.start < r2.start)
      (rowRuns img y) :=
  scanRowAux_sorted img y img.w 0

theorem rowRuns_cover (img : Image) (y x : Nat) (hx : x < img.w)
    (ha : (img.pix x y).a ≠ 0) :
    ∃ r ∈ rowRuns img y, r.start ≤ x ∧ x < r.start + r.len :=
  scanRowAux_cover img y img.w 0 x (Nat.le_refl _) (Nat.zero_le x) hx ha

/-- **C2.** For every image and row `y`, the emitted runs of row `y` all have
length ≥ 1, are sorted by start column ascending and pairwise non-overlapping
(each ends no later than the next begins), and for every column `x < w` the
number of runs covering `x` is exactly `0` when the pixel is fully
transparent and exactly `1` otherwise: the runs plus the transparent columns
partition `[0, w)` with no gaps and no overlaps. -/
theorem c2_run_partition (img : Image) (y : Nat) (_hy : y < img.h) :
    (∀ r ∈ rowRuns img y, 1 ≤ r.len) ∧
    List.Pairwise (fun r1 r2 => r1.start + r1.len ≤ r2.start ∧ r1.start < r2.start)
      (rowRuns img y) ∧
    (∀ x, x < img.w →
      (rowRuns img y).countP (fun r => decide (r.start ≤ x ∧ x < r.start + r.len)) =
        if (img.pix x y).a = 0 then 0 else 1) := by
  refine ⟨fun r hr => (rowRuns_good img y r hr).2.2.2.1, rowRuns_sorted img y, ?_⟩
  intro x hx
  by_cases ha : (img.pix x y).a = 0
  · rw [if_pos ha]
    refine List.countP_eq_zero.mpr ?_
    intro r hr hpr
    rcases of_decide_eq_true hpr with ⟨h1, h2⟩
    have hg := rowRuns_good img y r hr
    have hpix : img.pix x y = r.color := hg.2.2.2.2.2.2.2.1 x h1 h2
    exact hg.2.2.2.2.2.2.1 (hpix ▸ ha)
  · rw [if_neg ha]
    refine Nat.le_antisymm ?_ ?_
    · refine countP_le_one_of_pairwise ((rowRuns_sorted img y).imp ?_)
      intro r1 r2 h12 hpp
      rcases hpp with ⟨hp1, hp2⟩
      rcases of_decide_eq_true hp1 with ⟨a1, a2⟩
      rcases of_decide_eq_true hp2 with ⟨b1, b2⟩
      have := h12.1
      omega
    · obtain ⟨r, hr, h1, h2⟩ := rowRuns_cover img y x hx ha
      have hpos :
          0 < (rowRuns img y).countP
            (fun r => decide (r.start ≤ x ∧ x < r.start + r.len)) :=
        List.countP_pos_iff.mpr ⟨r, hr, decide_eq_true ⟨h1, h2⟩⟩
      omega

/-- Witness for C2: at the spec's 3×1 scenario, row 0 is in range and column
2 (the green pixel) is covered by exactly one run. -/
theorem c2_run_partition_witness :
    0 < img3.h ∧
    (rowRuns img3 0).countP (fun r => decide (r.start ≤ 2 ∧ 2 < r.start + r.len)) = 1 :=
  ⟨by decide, ((c2_run_partition img3 0 (by decide)).2.2 2 (by decide)).trans (by decide)⟩

/-- **C3.** For every image and every row, no two emitted runs whose column
ranges are adjacent (the first ends exactly where the second starts) have
identical RGBA color: any such pair would have been merged by the scanning
loop. -/
theorem c3_run_maximality (img : Image) (y : Nat) :
    List.Pairwise (fun r1 r2 => r1.start + r1.len = r2.start → r1.color ≠ r2.color)
      (rowRuns img y) :=
  scanRowAux_maximal img y img.w 0

/-- Witness for C3 at the spec's 3×1 scenario (its two runs touch at
column 2 and indeed differ in color). -/
theorem c3_run_maximality_witness :
    List.Pairwise (fun r1 r2 => r1.start + r1.len = r2.start → r1.color ≠ r2.color)
      (rowRuns img3 0) :=
  c3_run_maximality img3 0

/-! ### Round-trip rasterization (claim C1) -/

theorem mem_runsOf {img : Image} {r : Run} :
    r ∈ runsOf img ↔ ∃ y, y < img.h ∧ r ∈ rowRuns img y := by
  simp only [runsOf, List.mem_flatten, List.mem_map, List.mem_range]
  constructor
  · rintro ⟨l, ⟨y, hy, rfl⟩, hr⟩
    exact ⟨y, hy, hr⟩
  · rintro ⟨y, hy, hr⟩
    exact ⟨rowRuns img y, ⟨y, hy, rfl⟩, hr⟩

/-- **C1, counterexample.** The claim as stated fails: for the 1×1 image
`imgT`, whose only pixel is fully transparent but carries nonzero RGB
`(9,8,7)`, the SVG has no rectangle at all, so rasterizing (alpha 0 where
uncovered) yields `(0,0,0,0)` at the in-range coordinate `(0,0)` — not the
original pixel value.  The RGB of fully transparent pixels is not
reproduced. -/
theorem c1_counterexample :
    0 < imgT.w ∧ 0 < imgT.h ∧ rasterizeSpec (runsOf imgT) 0 0 ≠ imgT.pix 0 0 := by
  decide

/-- **C1, amended.** Rasterizing the rectangles of the produced SVG (alpha 0
where uncovered) reproduces the original RGBA buffer at every in-range pixel
whose alpha is nonzero, and yields the canonical fully transparent pixel
`(0,0,0,0)` exactly where the original alpha is `0`: the round trip is exact
except that the RGB channels of fully transparent pixels are not preserved. -/
theorem c1_roundtrip (img : Image) (x y : Nat) (hx : x < img.w) (hy : y < img.h) :
    rasterizeSpec (runsOf img) x y =
      if (img.pix x y).a = 0 then ⟨0, 0, 0, 0⟩ else img.pix x y := by
  unfold rasterizeSpec
  by_cases ha : (img.pix x y).a = 0
  · rw [if_pos ha]
    have hnone : (runsOf img).find? (fun r => coversB r x y) = none := by
      rw [List.find?_eq_none]
      intro r hr hc
      obtain ⟨y', hy', hr'⟩ := mem_runsOf.mp hr
      have hg := rowRuns_good img y' r hr'
      simp only [coversB, Bool.and_eq_true, decide_eq_true_eq] at hc
      obtain ⟨⟨hrow, h1⟩, h2⟩ := hc
      have hyy : y' = y := by rw [← hg.1, hrow]
      subst hyy
      have hpix : img.pix x y' = r.color := hg.2.2.2.2.2.2.2.1 x h1 h2
      exact hg.2.2.2.2.2.2.1 (hpix ▸ ha)
    rw [hnone]
  · rw [if_neg ha]
    obtain ⟨r, hr, h1, h2⟩ := rowRuns_cover img y x hx ha
    cases hfind : (runsOf img).find? (fun r => coversB r x y) with
    | none =>
      exfalso
      rw [List.find?_eq_none] at hfind
      refine hfind r (mem_runsOf.mpr ⟨y, hy, hr⟩) ?_
      simp only [coversB, Bool.and_eq_true, decide_eq_true_eq]
      exact ⟨⟨(rowRuns_good img y r hr).1, h1⟩, h2⟩
    | some r2 =>
      have hp := List.find?_some hfind
      have hm := List.mem_of_find?_eq_some hfind
      obtain ⟨y', hy', hr'⟩ := mem_runsOf.mp hm
      have hg := rowRuns_good img y' r2 hr'
      simp only [coversB, Bool.and_eq_true, decide_eq_true_eq] at hp
      obtain ⟨⟨hrow, k1⟩, k2⟩ := hp
      have hyy : y' = y := by rw [← hg.1, hrow]
      subst hyy
      exact (hg.2.2.2.2.2.2.2.1 x k1 k2).symm

/-- Witness for the amended C1 at the spec's 3×1 scenario: the green pixel
at column 2 comes back exactly. -/
theorem c1_roundtrip_witness :
    2 < img3.w ∧ 0 < img3.h ∧
    rasterizeSpec (runsOf img3) 2 0 =
      (if (img3.pix 2 0).a = 0 then ⟨0, 0, 0, 0⟩ else img3.pix 2 0) :=
  ⟨by decide, by decide, c1_roundtrip img3 2 0 (by decide) (by decide)⟩

/-! ### Color and opacity serialization (claim C4) -/

theorem hexDigit_mem : ∀ n, n < 16 → hexDigit n ∈ ("0123456789ABCDEF").data := by
  decide

theorem digitChar_mem : ∀ m, m < 10 → Nat.digitChar m ∈ ("0123456789").data := by
  decide

/-- The `Rat.divInt` spelling of the opacity equals the division `a/255`. -/
theorem divInt_255_eq (a : Fin 256) :
    Rat.divInt (a.val : ℤ) 255 = (a.val : ℚ) / 255 := by
  rw [Rat.divInt_eq_div]; push_cast; ring

/-- The source's `fill_opacity < 1.0` test holds exactly when alpha ≠ 255. -/
theorem fill_opacity_lt_iff (a : Fin 256) :
    Rat.divInt (a.val : ℤ) 255 < 1 ↔ a.val ≠ 255 := by
  have ha := a.isLt
  rw [Rat.divInt_eq_div]
  push_cast
  rw [div_lt_one (by norm_num : (0:ℚ) < 255)]
  constructor
  · intro h hne
    rw [hne] at h
    norm_num at h
  · intro hne
    have h : a.val < 255 := by omega
    exact_mod_cast h

theorem format6_digits (q : ℚ) :
    ∀ ch ∈ (format6 q).data.drop 2, ch ∈ ("0123456789").data := by
  intro ch hch
  have he : (format6 q).data.drop 2 =
      [Nat.digitChar ((q.num.toNat * 2000000 + q.den) / (2 * q.den) / 100000 % 10),
        Nat.digitChar ((q.num.toNat * 2000000 + q.den) / (2 * q.den) / 10000 % 10),
        Nat.digitChar ((q.num.toNat * 2000000 + q.den) / (2 * q.den) / 1000 % 10),
        Nat.digitChar ((q.num.toNat * 2000000 + q.den) / (2 * q.den) / 100 % 10),
        Nat.digitChar ((q.num.toNat * 2000000 + q.den) / (2 * q.den) / 10 % 10),
        Nat.digitChar ((q.num.toNat * 2000000 + q.den) / (2 * q.den) % 10)] := rfl
  rw [he] at hch
  simp only [List.mem_cons, List.not_mem_nil, or_false] at hch
  rcases hch with h | h | h | h | h | h <;>
    exact h ▸ digitChar_mem _ (Nat.mod_lt _ (by norm_num))

/-- **C4.** For every run: the fill string is `#` followed by six uppercase
hexadecimal digits (the RGB channels); the opacity value equals `a/255`;
when alpha is exactly 255 the rect gets no `fill-opacity` attribute; and
otherwise it gets `fill-opacity` equal to `a/255` rendered as `0.` plus
exactly six decimal digits — in particular alpha 128 renders as
`0.501961`. -/
theorem c4_fill_formatting (r : Run) :
    (rgba_to_svg_fill r.color.r r.color.g r.color.b r.color.a).2 =
      (r.color.a.val : ℚ) / 255 ∧
    ((rgba_to_svg_fill r.color.r r.color.g r.color.b r.color.a).1).length = 7 ∧
    ((rgba_to_svg_fill r.color.r r.color.g r.color.b r.color.a).1).data.head? =
      some '#' ∧
    (∀ ch ∈ ((rgba_to_svg_fill r.color.r r.color.g r.color.b r.color.a).1).data.tail,
      ch ∈ ("0123456789ABCDEF").data) ∧
    (r.color.a.val = 255 → rectChunks r = [rectOpen r, "/>\n"]) ∧
    (r.color.a.val ≠ 255 →
      rectChunks r =
        [rectOpen r,
          " fill-opacity=\"" ++ format6 ((r.color.a.val : ℚ) / 255) ++ "\"",
          "/>\n"] ∧
      (format6 ((r.color.a.val : ℚ) / 255)).length = 8 ∧
      ∀ ch ∈ (format6 ((r.color.a.val : ℚ) / 255)).data.drop 2,
        ch ∈ ("0123456789").data) ∧
    format6 ((128 : ℚ) / 255) = "0.501961" := by
  refine ⟨divInt_255_eq r.color.a, rfl, rfl, ?_, ?_, ?_, ?_⟩
  · intro ch hch
    have he :
        ((rgba_to_svg_fill r.color.r r.color.g r.color.b r.color.a).1).data.tail =
        [hexDigit (r.color.r.val / 16), hexDigit (r.color.r.val % 16),
          hexDigit (r.color.g.val / 16), hexDigit (r.color.g.val % 16),
          hexDigit (r.color.b.val / 16), hexDigit (r.color.b.val % 16)] := rfl
    rw [he] at hch
    have h1 := r.color.r.isLt
    have h2 := r.color.g.isLt
    have h3 := r.color.b.isLt
    simp only [List.mem_cons, List.not_mem_nil, or_false] at hch
    rcases hch with h | h | h | h | h | h <;> exact h ▸ hexDigit_mem _ (by omega)
  · intro h255
    simp only [rectChunks, rgba_to_svg_fill]
    rw [if_neg fun hlt => (fill_opacity_lt_iff r.color.a).mp hlt h255]
    rfl
  · intro hne
    refine ⟨?_, rfl, format6_digits _⟩
    simp only [rectChunks, rgba_to_svg_fill]
    rw [if_pos ((fill_opacity_lt_iff r.color.a).mpr hne), divInt_255_eq r.color.a]
    rfl
  · rw [show ((128:ℚ)/255) = Rat.divInt 128 255 from by
      rw [Rat.divInt_eq_div]; norm_num]
    decide

/-- Witness for C4 at a half-transparent run (alpha 128): the rect carries
`fill-opacity="0.501961"`, and at the opaque run of `img3` no
`fill-opacity` appears. -/
theorem c4_fill_formatting_witness :
    runHalf.color.a.val ≠ 255 ∧
    rectChunks runHalf =
      ["  <rect x=\"0\" y=\"0\" width=\"1\" height=\"1\" fill=\"#102030\"",
        " fill-opacity=\"0.501961\"", "/>\n"] := by
  refine ⟨by decide, ?_⟩
  have h := ((c4_fill_formatting runHalf).2.2.2.2.2.1 (by decide)).1
  have ha : runHalf.color.a.val = 128 := by decide
  rw [h, ha, Nat.cast_ofNat, (c4_fill_formatting runHalf).2.2.2.2.2.2]
  decide

/-! ### Determinism and data-independence of the produced text (C6, C10)

The converter only ever reads `pix x y` for `x < w`, `y < h`, and the only
thing it uses about a fully transparent pixel is that its alpha is `0`.  The
congruence lemmas below make both facts precise; C6 and C10 are instances. -/

theorem runEndAux_congr (img1 img2 : Image) (y : Nat) (c : RGBA) (hc : c.a ≠ 0)
    (hw : img1.w = img2.w)
    (hpix : ∀ t, t < img1.w →
      (img1.pix t y).a = (img2.pix t y).a ∧
      ((img1.pix t y).a ≠ 0 → img1.pix t y = img2.pix t y)) :
    ∀ fuel x, runEndAux img1 y c fuel x = runEndAux img2 y c fuel x := by
  intro fuel
  induction fuel with
  | zero => intro x; rfl
  | succ fuel ih =>
    intro x
    simp only [runEndAux]
    by_cases hx : x < img1.w
    · have hx2 : x < img2.w := by omega
      rw [if_pos hx, if_pos hx2]
      obtain ⟨haeq, heq⟩ := hpix x hx
      have hiff : img1.pix x y = c ↔ img2.pix x y = c := by
        constructor
        · intro h1
          have ha1 : (img1.pix x y).a ≠ 0 := by rw [h1]; exact hc
          rw [← heq ha1, h1]
        · intro h2
          have ha1 : (img1.pix x y).a ≠ 0 := by rw [haeq, h2]; exact hc
          rw [heq ha1, h2]
      by_cases hp : img1.pix x y = c
      · rw [if_pos hp, if_pos (hiff.mp hp)]
        exact ih (x + 1)
      · rw [if_neg hp, if_neg fun h => hp (hiff.mpr h)]
    · have hx2 : ¬x < img2.w := by omega
      rw [if_neg hx, if_neg hx2]

theorem scanRowAux_congr (img1 img2 : Image) (y : Nat) (hw : img1.w = img2.w)
    (hpix : ∀ t, t < img1.w →
      (img1.pix t y).a = (img2.pix t y).a ∧
      ((img1.pix t y).a ≠ 0 → img1.pix t y = img2.pix t y)) :
    ∀ fuel x, scanRowAux img1 y fuel x = scanRowAux img2 y fuel x := by
  intro fuel
  induction fuel with
  | zero => intro x; rfl
  | succ fuel ih =>
    intro x
    simp only [scanRowAux]
    by_cases hx : x < img1.w
    · have hx2 : x < img2.w := by omega
      rw [if_pos hx, if_pos hx2]
      obtain ⟨haeq, heq⟩ := hpix x hx
      by_cases ha : (img1.pix x y).a = 0
      · rw [if_pos ha, if_pos (by rw [← haeq]; exact ha)]
        exact ih (x + 1)
      · rw [if_neg ha, if_neg (by rw [← haeq]; exact ha)]
        have hpe : img1.pix x y = img2.pix x y := heq ha
        have hre : runEnd img1 y (img1.pix x y) (x + 1) =
            runEnd img2 y (img2.pix x y) (x + 1) := by
          unfold runEnd
          rw [← hpe, ← hw]
          exact runEndAux_congr img1 img2 y (img1.pix x y) ha hw hpix _ _
        rw [hre, hpe, ih (runEnd img2 y (img2.pix x y) (x + 1))]
    · have hx2 : ¬x < img2.w := by omega
      rw [if_neg hx, if_neg hx2]

theorem map_congr_mem {α β : Type _} (f g : α → β) :
    ∀ l : List α, (∀ a ∈ l, f a = g a) → l.map f = l.map g := by
  intro l
  induction l with
  | nil => intro _; rfl
  | cons a l ih =>
    intro h
    simp only [List.map_cons]
    rw [h a (List.mem_cons_self a l), ih fun b hb => h b (List.mem_cons_of_mem a hb)]

/-- Core congruence: the produced SVG text depends only on the dimensions,
the alpha plane, and the RGBA values of the not-fully-transparent in-range
pixels. -/
theorem svgText_congr (img1 img2 : Image) (hw : img1.w = img2.w)
    (hh : img1.h = img2.h)
    (hpix : ∀ x, x < img1.w → ∀ y, y < img1.h →
      (img1.pix x y).a = (img2.pix x y).a ∧
      ((img1.pix x y).a ≠ 0 → img1.pix x y = img2.pix x y)) :
    svgText img1 = svgText img2 := by
  have hrows : runsOf img1 = runsOf img2 := by
    unfold runsOf
    rw [← hh]
    congr 1
    apply map_congr_mem
    intro y hy
    have hy' := List.mem_range.mp hy
    unfold rowRuns
    rw [← hw]
    exact scanRowAux_congr img1 img2 y hw (fun t ht => hpix t ht y hy') img1.w 0
  unfold svgText svgChunks
  rw [hrows, hw, hh]

/-- **C6.** The conversion is deterministic in the pixel data: two decoded
images with the same dimensions and the same RGBA value at every in-range
coordinate produce byte-identical SVG text.  (The embedding is a pure
function, so two runs on the very same image are trivially identical; this
says more: nothing besides the pixel grid — no object identity, no
out-of-range memory — influences the text.) -/
theorem c6_deterministic (img1 img2 : Image) (hw : img1.w = img2.w)
    (hh : img1.h = img2.h)
    (hpix : ∀ x, x < img1.w → ∀ y, y < img1.h → img1.pix x y = img2.pix x y) :
    svgText img1 = svgText img2 :=
  svgText_congr img1 img2 hw hh fun x hx y hy =>
    ⟨by rw [hpix x hx y hy], fun _ => hpix x hx y hy⟩

/-- Witness for C6: `img3Pad` stores garbage outside the 3×1 grid, yet the
text is identical to that of `img3`. -/
theorem c6_deterministic_witness :
    (∀ x, x < img3.w → ∀ y, y < img3.h → img3.pix x y = img3Pad.pix x y) ∧
    svgText img3 = svgText img3Pad :=
  ⟨by decide, c6_deterministic img3 img3Pad rfl rfl (by decide)⟩

/-- **C10.** The RGB channels of fully transparent pixels never influence
the output: two images of equal dimensions whose pixels agree on alpha
everywhere and agree fully wherever alpha is nonzero produce byte-identical
SVG text. -/
theorem c10_transparent_rgb_independent (img1 img2 : Image)
    (hw : img1.w = img2.w) (hh : img1.h = img2.h)
    (hpix : ∀ x, x < img1.w → ∀ y, y < img1.h →
      (img1.pix x y).a = (img2.pix x y).a ∧
      ((img1.pix x y).a ≠ 0 → img1.pix x y = img2.pix x y)) :
    svgText img1 = svgText img2 :=
  svgText_congr img1 img2 hw hh hpix

/-- Witness for C10: `imgHalf` and `imgHalf2` differ (only) in the RGB of
their fully transparent pixel, and their SVG texts coincide. -/
theorem c10_transparent_rgb_independent_witness :
    imgHalf.pix 1 0 ≠ imgHalf2.pix 1 0 ∧
    svgText imgHalf = svgText imgHalf2 :=
  ⟨by decide, c10_transparent_rgb_independent imgHalf imgHalf2 rfl rfl (by decide)⟩

/-! ### Orchestration: skipping, failure artifacts, batch continuation -/

theorem foldl_append_init (l : List String) :
    ∀ s : String, l.foldl (fun r t => r ++ t) s = s ++ l.foldl (fun r t => r ++ t) "" := by
  induction l with
  | nil => intro s; simp only [List.foldl]; rw [String.append_empty]
  | cons a l ih =>
    intro s
    simp only [List.foldl]
    rw [ih (s ++ a), ih ("" ++ a), String.empty_append, String.append_assoc]

theorem join_append_str (l1 l2 : List String) :
    String.join (l1 ++ l2) = String.join l1 ++ String.join l2 := by
  unfold String.join
  rw [List.foldl_append]
  exact foldl_append_init l2 _

/-- The chunks written before a failing write are a prefix of the full text. -/
theorem join_take_drop (l : List String) (k : Nat) :
    String.join (l.take k) ++ String.join (l.drop k) = String.join l := by
  rw [← join_append_str, List.take_append_drop]

/-- **C5, counterexample.** The claim quantifies over every input path whose
output already exists, but `convert_selected` checks `src.exists()` before
the skip check (lines 211-217): a since-deleted input whose output file is
present yields `Error("... (missing)")`, not `Skipped`. -/
theorem c5_counterexample :
    lookup fsGone (inpGone.stem ++ ".svg") = some "old content" ∧
    (convertOne none fsGone inpGone).2 = .error "gone.png (missing)" ∧
    (convertOne none fsGone inpGone).2 ≠ .skipped inpGone.name := by
  refine ⟨?_, ?_, ?_⟩ <;> decide

/-- **C5, amended.** For every input path that still exists and whose
computed output path already exists, the orchestrator produces `Skipped`
without decoding the input (the outcome and state are the same whatever the
decoder would return, and whatever the write-failure schedule is) and
without modifying any file.  Consequently converting an existing input twice
with no intervening clearing yields `Converted` then `Skipped`, and the
output file's bytes are unchanged. -/
theorem c5_skip_idempotent (inp : InputFile) (fs : OutDirFiles)
    (fa : Option (Nat × String)) :
    (inp.status ≠ .missing → ∀ c, lookup fs (inp.stem ++ ".svg") = some c →
      convertOne fa fs inp = (fs, .skipped inp.name)) ∧
    (∀ img, inp.status = .decoded img → lookup fs (inp.stem ++ ".svg") = none →
      (convertOne none fs inp).2 = .converted inp.name ∧
      convertOne fa (convertOne none fs inp).1 inp =
        ((convertOne none fs inp).1, .skipped inp.name) ∧
      lookup (convertOne none fs inp).1 (inp.stem ++ ".svg") = some (svgText img)) := by
  constructor
  · intro hmiss c hex
    cases hst : inp.status with
    | missing => exact absurd hst hmiss
    | undecodable msg => simp [convertOne, hst, hex]
    | decoded img => simp [convertOne, hst, hex]
  · intro img hst habs
    have h1 : convertOne none fs inp =
        (writeFile fs (inp.stem ++ ".svg") (svgText img), .converted inp.name) := by
      simp [convertOne, hst, habs]
    have h2 : lookup (writeFile fs (inp.stem ++ ".svg") (svgText img))
        (inp.stem ++ ".svg") = some (svgText img) := by
      simp [lookup, writeFile, List.find?]
    refine ⟨by rw [h1], ?_, by rw [h1]; exact h2⟩
    rw [h1]
    simp [convertOne, hst, h2]

/-- Witness for the amended C5: converting `three.png` into an empty output
directory and then again. -/
theorem c5_skip_idempotent_witness :
    lookup ([] : OutDirFiles) (inpThree.stem ++ ".svg") = none ∧
    (convertOne none [] inpThree).2 = .converted inpThree.name ∧
    convertOne none (convertOne none [] inpThree).1 inpThree =
      ((convertOne none [] inpThree).1, .skipped inpThree.name) ∧
    lookup (convertOne none [] inpThree).1 (inpThree.stem ++ ".svg") =
      some (svgText img3) :=
  ⟨rfl, ((c5_skip_idempotent inpThree [] none).2 img3 rfl rfl).1,
    ((c5_skip_idempotent inpThree [] none).2 img3 rfl rfl).2.1,
    ((c5_skip_idempotent inpThree [] none).2 img3 rfl rfl).2.2⟩

/-- **C7, counterexample.** A failure after the output file has been opened
is caught and reported as `Error`, but the partially written file remains:
`image_to_svg_vector` opens `out_path` and writes incrementally with no
cleanup on exception.  Here the second `f.write` for a 1×1 red image raises
("disk full"): the outcome is `Error`, yet `red.svg` exists and holds the
XML declaration — contradicting "the output file does not exist
afterward". -/
theorem c7_counterexample :
    (convertOne (some (1, "disk full")) [] inpRed).2 =
      .error "red.png (error: disk full)" ∧
    lookup (convertOne (some (1, "disk full")) [] inpRed).1 "red.svg" =
      some "<?xml version=\"1.0\" encoding=\"UTF-8\"?>\n" := by
  constructor <;> decide

/-- **C7, amended.** A missing input or a decode failure (both happen before
the output file is opened) produces `Error` and leaves the output directory
exactly as it was — no file is created.  A failure while writing still
produces `Error` for that file, but the created output file remains, holding
the chunks written so far — a prefix of the intended SVG text. -/
theorem c7_failure_artifacts (inp : InputFile) (fs : OutDirFiles)
    (fa : Option (Nat × String)) (img : Image) (k : Nat) (m : String) :
    (inp.status = .missing →
      convertOne fa fs inp = (fs, .error (inp.name ++ " (missing)"))) ∧
    (∀ msg, inp.status = .undecodable msg → lookup fs (inp.stem ++ ".svg") = none →
      convertOne fa fs inp = (fs, .error (inp.name ++ " (error: " ++ msg ++ ")"))) ∧
    (inp.status = .decoded img → lookup fs (inp.stem ++ ".svg") = none →
      k < (svgChunks img).length →
      (convertOne (some (k, m)) fs inp).2 =
        .error (inp.name ++ " (error: " ++ m ++ ")") ∧
      lookup (convertOne (some (k, m)) fs inp).1 (inp.stem ++ ".svg") =
        some (String.join ((svgChunks img).take k)) ∧
      String.join ((svgChunks img).take k) ++ String.join ((svgChunks img).drop k) =
        svgText img) := by
  refine ⟨?_, ?_, ?_⟩
  · intro hst
    simp [convertOne, hst]
  · intro msg hst habs
    simp [convertOne, hst, habs]
  · intro hst habs hk
    have h1 : convertOne (some (k, m)) fs inp =
        (writeFile fs (inp.stem ++ ".svg") (String.join ((svgChunks img).take k)),
          .error (inp.name ++ " (error: " ++ m ++ ")")) := by
      simp [convertOne, hst, habs, hk]
    refine ⟨by rw [h1], by rw [h1]; simp [lookup, writeFile, List.find?], ?_⟩
    exact join_take_drop (svgChunks img) k

/-- Witness for the amended C7: a corrupt input leaves an empty output
directory untouched, and an injected write failure on `red.png` is an
`Error`. -/
theorem c7_failure_artifacts_witness :
    lookup ([] : OutDirFiles) (inpBad.stem ++ ".svg") = none ∧
    convertOne none [] inpBad =
      ([], .error (inpBad.name ++ " (error: " ++ "broken header" ++ ")")) ∧
    (convertOne (some (1, "oops")) [] inpRed).2 =
      .error (inpRed.name ++ " (error: " ++ "oops" ++ ")") :=
  ⟨rfl, (c7_failure_artifacts inpBad [] none imgRed 0 "m").2.1 "broken header" rfl rfl,
    ((c7_failure_artifacts inpRed [] none imgRed 1 "oops").2.2 rfl rfl (by decide)).1⟩

theorem convertBatch_length (inps : List (InputFile × Option (Nat × String))) :
    ∀ fs, (convertBatch fs inps).2.length = inps.length := by
  induction inps with
  | nil => intro fs; rfl
  | cons p rest ih =>
    intro fs
    cases p with
    | mk inp fa => simp only [convertBatch, List.length_cons, ih]

theorem convertBatch_append (l1 l2 : List (InputFile × Option (Nat × String))) :
    ∀ fs, convertBatch fs (l1 ++ l2) =
      ((convertBatch (convertBatch fs l1).1 l2).1,
        (convertBatch fs l1).2 ++ (convertBatch (convertBatch fs l1).1 l2).2) := by
  induction l1 with
  | nil => intro fs; rfl
  | cons p l1 ih =>
    intro fs
    cases p with
    | mk inp fa =>
      simp only [List.cons_append, convertBatch]
      have hl : l1.append l2 = l1 ++ l2 := rfl
      rw [hl, ih ((convertOne fa fs inp).1)]

/-- **C8.** A batch yields exactly one outcome per input path, in order, and
a missing input contributes an `Error("name (missing)")` outcome while the
remaining paths are still processed, from an unchanged output directory: no
single failing file aborts the batch. -/
theorem c8_batch_continues (fs : OutDirFiles)
    (inps : List (InputFile × Option (Nat × String))) :
    (convertBatch fs inps).2.length = inps.length ∧
    (∀ pre inp fa post, inps = pre ++ (inp, fa) :: post → inp.status = .missing →
      (convertBatch fs inps).2 =
        (convertBatch fs pre).2 ++
          .error (inp.name ++ " (missing)") ::
            (convertBatch (convertBatch fs pre).1 post).2) := by
  constructor
  · exact convertBatch_length inps fs
  · intro pre inp fa post heq hmiss
    subst heq
    rw [convertBatch_append]
    have h1 : convertOne fa (convertBatch fs pre).1 inp =
        ((convertBatch fs pre).1, .error (inp.name ++ " (missing)")) := by
      unfold convertOne
      rw [hmiss]
    simp only [convertBatch, h1]

/-- Witness for C8: a three-file batch whose middle file has gone missing
still yields three outcomes, with the missing file's `Error` in between. -/
theorem c8_batch_continues_witness :
    (convertBatch [] [(inpRed, none), (inpGone, none), (inpBad, none)]).2.length = 3 ∧
    (convertBatch [] [(inpRed, none), (inpGone, none), (inpBad, none)]).2 =
      (convertBatch [] [(inpRed, none)]).2 ++
        .error (inpGone.name ++ " (missing)") ::
          (convertBatch (convertBatch [] [(inpRed, none)]).1 [(inpBad, none)]).2 :=
  ⟨(c8_batch_continues [] [(inpRed, none), (inpGone, none), (inpBad, none)]).1,
    (c8_batch_continues [] [(inpRed, none), (inpGone, none), (inpBad, none)]).2
      [(inpRed, none)] inpGone none [(inpBad, none)] rfl rfl⟩

/-! ### The cleanup operation (claim C9) -/

/-- **C9.** `clear_converted` is a no-op when the output directory is absent;
otherwise it deletes exactly the files directly inside it whose deletion
succeeds (a failed deletion never aborts the others, and nothing ever
raises — the operation is total), never touches subdirectories or their
contents, and afterwards removes the directory itself precisely when nothing
is left in it. -/
theorem c9_clear (cd : String → Bool) (d : OutDirState) :
    (d.present = false → clear_converted cd d = d) ∧
    (d.present = true →
      (clear_converted cd d).subdirs = d.subdirs ∧
      (clear_converted cd d).files = d.files.filter (fun f => !cd f.1) ∧
      (∀ f ∈ d.files, cd f.1 = true → f ∉ (clear_converted cd d).files) ∧
      ((clear_converted cd d).present = false ↔
        (d.files.filter (fun f => !cd f.1) = [] ∧ d.subdirs = []))) := by
  constructor
  · intro hp
    unfold clear_converted
    rw [hp]
    simp
  · intro hp
    have hmem : ∀ f ∈ d.files, cd f.1 = true →
        f ∉ d.files.filter (fun f => !cd f.1) := by
      intro f _ hcd hmem
      have := (List.mem_filter.mp hmem).2
      rw [hcd] at this
      simp at this
    unfold clear_converted
    rw [hp]
    by_cases hemp : ((d.files.filter fun f => !cd f.1).isEmpty && d.subdirs.isEmpty) = true
    · rw [if_pos rfl, if_pos hemp]
      rcases Bool.and_eq_true_iff.mp hemp with ⟨he1, he2⟩
      have hf : d.files.filter (fun f => !cd f.1) = [] := List.isEmpty_iff.mp he1
      have hs : d.subdirs = [] := List.isEmpty_iff.mp he2
      refine ⟨hs.symm, hf.symm, ?_, ?_⟩
      · intro f hf' hcd hmem
        exact absurd hmem (List.not_mem_nil f)
      · simp [hf, hs]
    · rw [if_pos rfl, if_neg hemp]
      refine ⟨rfl, rfl, hmem, ?_⟩
      simp only [Bool.and_eq_true_iff, List.isEmpty_iff] at hemp
      constructor
      · intro h
        exact absurd h (by simp)
      · intro ⟨h1, h2⟩
        exact absurd ⟨h1, h2⟩ hemp

/-- Witness for C9 at a populated directory: `a.svg` is deleted, the
undeletable `locked.svg` survives, the subdirectory and its contents are
untouched, and the non-empty directory is not removed. -/
theorem c9_clear_witness :
    dirDemo.present = true ∧
    (clear_converted canDelDemo dirDemo).files = [("locked.svg", "y")] ∧
    (clear_converted canDelDemo dirDemo).subdirs = dirDemo.subdirs ∧
    ("a.svg", "x") ∉ (clear_converted canDelDemo dirDemo).files ∧
    (clear_converted canDelDemo dirDemo).present = true := by
  have h := (c9_clear canDelDemo dirDemo).2 rfl
  refine ⟨rfl, h.2.1.trans (by decide), h.1, ?_, ?_⟩
  · exact h.2.2.1 ("a.svg", "x") (by decide) (by decide)
  · by_contra hfalse
    have hiff := h.2.2.2
    have : (clear_converted canDelDemo dirDemo).present = false := by
      cases hpres : (clear_converted canDelDemo dirDemo).present
      · rfl
      · exact absurd hpres hfalse
    rcases hiff.mp this with ⟨h1, _⟩
    exact absurd (h1.symm.trans (by decide : ([("locked.svg", "y")] : List (String × String)) = dirDemo.files.filter (fun f => !canDelDemo f.1)).symm) (by decide)

end Img2Svg
